import Mathlib

set_option autoImplicit false

namespace PrismaNestApi

/-!
Shallow embedding of the `prisma-nest-api` generator core:
the DMMF-like entity metadata model, the enrichment pass
(`src/generator/model-generator/utils/model-processor.ts`), the field
inclusion policy (`src/generator/model-generator/utils/helpers.ts`), the
per-artifact field-set computations of the DTO generators, the
where-clause construction of the service generator, and the JSON
companion-DTO generation.  TypeScript `Map`/`Set` values are embedded as
insertion-ordered association lists / lists, `undefined`-able values as
`Option`, and the file system (for the JSON companion DTOs) as an
explicit association list from paths to contents.
-/

/-- JS-object association list lookup: first entry with the given key. -/
def getProp {V : Type} (k : String) : List (String × V) → Option V
  | [] => none
  | e :: es => if e.1 = k then some e.2 else getProp k es

/-- JS-object property write: overwrite in place when the key is present
(every entry with the key is overwritten; `getProp` only ever sees the
first), append otherwise.  This is the semantics of writing one property
of an object literal. -/
def setProp {V : Type} (obj : List (String × V)) (k : String) (v : V) : List (String × V) :=
  if (getProp k obj).isSome then
    obj.map (fun e => if e.1 = k then (k, v) else e)
  else
    obj ++ [(k, v)]

/-- Semantics of a JS spread followed by further property writes:
`\x7b...obj, e₁, e₂, …\x7d` writes the entries left to right on top of `obj`. -/
def spreadInto {V : Type} (obj : List (String × V)) (entries : List (String × V)) :
    List (String × V) :=
  entries.foldl (fun acc e => setProp acc e.1 e.2) obj

/-- Left-biased choice on `Option`, used to state lookup lemmas. -/
def optOr {α : Type} : Option α → Option α → Option α
  | some a, _ => some a
  | none, b => b

@[simp] theorem optOr_none_left {α : Type} (b : Option α) : optOr none b = b := rfl

@[simp] theorem optOr_some_left {α : Type} (a : α) (b : Option α) :
    optOr (some a) b = some a := rfl

@[simp] theorem optOr_none_right {α : Type} (a : Option α) : optOr a none = a := by
  cases a <;> rfl

theorem optOr_assoc {α : Type} (a b c : Option α) :
    optOr (optOr a b) c = optOr a (optOr b c) := by
  cases a <;> cases b <;> rfl

@[simp] theorem getProp_nil {V : Type} (k : String) : getProp (V := V) k [] = none := rfl

@[simp] theorem getProp_cons {V : Type} (k : String) (e : String × V) (es : List (String × V)) :
    getProp k (e :: es) = if e.1 = k then some e.2 else getProp k es := rfl

theorem getProp_append {V : Type} (k : String) (l₁ l₂ : List (String × V)) :
    getProp k (l₁ ++ l₂) = optOr (getProp k l₁) (getProp k l₂) := by
  induction l₁ with
  | nil => simp
  | cons e es ih =>
    by_cases h : e.1 = k <;> simp [h, ih]

theorem getProp_map_overwrite_self {V : Type} (obj : List (String × V)) (a : String) (v : V)
    (h : (getProp a obj).isSome) :
    getProp a (obj.map (fun e => if e.1 = a then (a, v) else e)) = some v := by
  induction obj with
  | nil => simp [getProp] at h
  | cons e es ih =>
    by_cases he : e.1 = a
    · simp [he, getProp]
    · simp only [getProp_cons, he, if_false] at h
      simp [he, getProp, ih h]

theorem getProp_map_overwrite_other {V : Type} (obj : List (String × V)) (a k : String) (v : V)
    (h : k ≠ a) :
    getProp k (obj.map (fun e => if e.1 = a then (a, v) else e)) = getProp k obj := by
  induction obj with
  | nil => rfl
  | cons e es ih =>
    by_cases he : e.1 = a
    · have hak : ¬ (a = k) := fun hak => h hak.symm
      have hek : ¬ (e.1 = k) := fun hek => hak (he ▸ hek)
      simp [he, getProp, hak, hek, ih]
    · have hka : ¬ (k = a) := h
      by_cases hek : e.1 = k
      · simp [he, getProp, hek, hka]
      · simp [he, getProp, hek, ih]

theorem getProp_setProp_self {V : Type} (obj : List (String × V)) (k : String) (v : V) :
    getProp k (setProp obj k v) = some v := by
  unfold setProp
  by_cases hs : (getProp k obj).isSome
  · rw [if_pos hs]
    exact getProp_map_overwrite_self obj k v hs
  · have hg : getProp k obj = none := by
      cases h2 : getProp k obj with
      | none => rfl
      | some w => exact absurd (by rw [h2]; rfl) hs
    rw [if_neg hs, getProp_append, hg]
    simp [getProp]

theorem getProp_setProp_other {V : Type} (obj : List (String × V)) (a k : String) (v : V)
    (h : k ≠ a) : getProp k (setProp obj a v) = getProp k obj := by
  unfold setProp
  by_cases hp : (getProp a obj).isSome
  · rw [if_pos hp]
    exact getProp_map_overwrite_other obj a k v h
  · rw [if_neg hp, getProp_append]
    have hak : ¬ (a = k) := fun hak => h hak.symm
    have : getProp k [(a, v)] = none := by simp [getProp, hak]
    simp [this]

theorem getProp_spreadInto_not_mem {V : Type} (entries : List (String × V)) (k : String)
    (h : ∀ e ∈ entries, e.1 ≠ k) (obj : List (String × V)) :
    getProp k (spreadInto obj entries) = getProp k obj := by
  induction entries generalizing obj with
  | nil => rfl
  | cons e es ih =>
    have hek : e.1 ≠ k := h e (by simp)
    have hes : ∀ x ∈ es, x.1 ≠ k := fun x hx => h x (by simp [hx])
    show getProp k (spreadInto (setProp obj e.1 e.2) es) = getProp k obj
    rw [ih hes, getProp_setProp_other obj e.1 k e.2 (fun hk => hek hk.symm)]

/-- Looking up a key written by a keyed map of a key list: the value is the
one the writing function computes for that key, independently of what was
already in the object. -/
theorem getProp_spreadInto_keyed {V : Type} (f : String → V) (l : List String) (k : String)
    (hk : k ∈ l) (obj : List (String × V)) :
    getProp k (spreadInto obj (l.map (fun s => (s, f s)))) = some (f k) := by
  induction l generalizing obj with
  | nil => cases hk
  | cons a as ih =>
    show getProp k (spreadInto (setProp obj a (f a)) (as.map (fun s => (s, f s)))) = some (f k)
    by_cases hmem : k ∈ as
    · exact ih hmem _
    · have hka : k = a := by
        rcases List.mem_cons.mp hk with h | h
        · exact h
        · exact absurd h hmem
      have hne : ∀ e ∈ as.map (fun s => (s, f s)), e.1 ≠ k := by
        intro e he
        rcases List.mem_map.mp he with ⟨s, hs, rfl⟩
        intro hsk
        exact hmem (hsk ▸ hs)
      rw [getProp_spreadInto_not_mem _ _ hne, hka, getProp_setProp_self]

/-! ## The raw data model (DMMF-like structures)

Mirrors `DMMF.Model` / `DMMF.Field` as used by this generator
(`src/generator/model-generator/utils/types.ts`). -/

/-- DMMF field kind tag: `'scalar' | 'object' | 'enum' | 'unsupported'`. -/
inductive FieldKind where
  | scalar
  | object
  | enum
  | unsupported
  deriving DecidableEq, BEq, Repr

/-- One field of a model, with the attributes the generator core reads.
`relationName` / `relationFromFields` are `Option` because they are
absent (`undefined`) on non-relation fields. -/
structure ModelField where
  name : String
  type : String
  kind : FieldKind
  isId : Bool
  isRequired : Bool
  hasDefaultValue : Bool
  isReadOnly : Bool
  isUpdatedAt : Bool
  isList : Bool
  relationName : Option String
  relationFromFields : Option (List String)
  deriving DecidableEq, Repr

/-- Composite primary key (`@@id`): the ordered field-name list. -/
structure PrimaryKey where
  fields : List String
  deriving DecidableEq, Repr

/-- A raw model as handed to `preprocessModels`. -/
structure Model where
  name : String
  fields : List ModelField
  primaryKey : Option PrimaryKey
  deriving DecidableEq, Repr

/-- Entry of the enriched `_relationFields` map: the relation-field names
depending on a foreign key, and the recorded read-only flag. -/
structure RelationInfo where
  relationFields : List String
  isReadOnly : Bool
  deriving DecidableEq, Repr

/-- A model after `preprocessModels`: the raw model plus `_foreignKeys`
(insertion-ordered set, embedded as a duplicate-free-by-construction list)
and `_relationFields` (insertion-ordered map, embedded as an association
list). -/
structure EnhancedModel where
  name : String
  fields : List ModelField
  primaryKey : Option PrimaryKey
  foreignKeys : List String
  relationFieldMap : List (String × RelationInfo)
  deriving DecidableEq, Repr

/-- JS truthiness of `field.relationName` (absent or empty string is falsy). -/
def relationNameTruthy (f : ModelField) : Bool :=
  match f.relationName with
  | none => false
  | some s => s != ""

/-- The guard `field.relationName && field.relationFromFields` of
`model-processor.ts` (an empty `relationFromFields` array is truthy in JS,
only `undefined` is falsy). -/
def declaresForeignKeys (f : ModelField) : Bool :=
  relationNameTruthy f && f.relationFromFields.isSome

/-- The `relationFromFields` list of a relation field (empty when absent). -/
def fromFieldsOf (f : ModelField) : List String :=
  f.relationFromFields.getD []

/-! ## Model enrichment (`model-processor.ts`, `preprocessModels`)

The first pass of `preprocessModels` builds a `relationMap` that the rest
of the function never reads, so only the second pass (lines 37-64) is
embedded.  The initial `JSON.parse(JSON.stringify(models))` deep copy is
the identity on the embedded values. -/

/-- `model._relationFields.get(fk)!.relationFields.push(relName)`:
append the relation-field name to the entry for `fk`. -/
def pushRelationName (rm : List (String × RelationInfo)) (fk relName : String) :
    List (String × RelationInfo) :=
  rm.map (fun e =>
    if e.1 = fk then (e.1, ⟨e.2.relationFields ++ [relName], e.2.isReadOnly⟩) else e)

/-- Lines 49-61 of `model-processor.ts` for one source-field name `fk` of
one relation field: add to `_foreignKeys` (`Set.add`), create the
`_relationFields` entry if absent (recording the relation field's
read-only flag at creation time only), then push the relation field's
name. -/
def addForeignKey (relField : ModelField) (st : List String × List (String × RelationInfo))
    (fk : String) : List String × List (String × RelationInfo) :=
  let fks := if st.1.contains fk then st.1 else st.1 ++ [fk]
  let rm :=
    if (getProp fk st.2).isSome then st.2
    else st.2 ++ [(fk, ⟨[], relField.isReadOnly⟩)]
  (fks, pushRelationName rm fk relField.name)

/-- Lines 46-63: process one field of the model. -/
def processField (st : List String × List (String × RelationInfo)) (f : ModelField) :
    List String × List (String × RelationInfo) :=
  if declaresForeignKeys f then (fromFieldsOf f).foldl (addForeignKey f) st else st

/-- The second pass of `preprocessModels` for one model. -/
def enhanceModel (m : Model) : EnhancedModel :=
  let st := m.fields.foldl processField ([], [])
  { name := m.name
    fields := m.fields
    primaryKey := m.primaryKey
    foreignKeys := st.1
    relationFieldMap := st.2 }

/-- `preprocessModels` over the whole model list. -/
def preprocessModels (models : List Model) : List EnhancedModel :=
  models.map enhanceModel

/-- A field declares the name `k` as one of its foreign keys. -/
def declaresKey (k : String) (f : ModelField) : Bool :=
  declaresForeignKeys f && (fromFieldsOf f).contains k

/-! ### Lemmas about the enrichment fold -/

theorem map_optOr {α β : Type} (g : α → β) (a b : Option α) :
    (optOr a b).map g = optOr (a.map g) (b.map g) := by
  cases a <;> rfl

theorem mem_addForeignKey_fst (f : ModelField) (st : List String × List (String × RelationInfo))
    (fk k : String) : k ∈ (addForeignKey f st fk).1 ↔ k ∈ st.1 ∨ k = fk := by
  unfold addForeignKey
  by_cases hc : st.1.contains fk
  · have hm : fk ∈ st.1 := List.elem_iff.mp hc
    simp only [hc, if_true]
    constructor
    · exact Or.inl
    · rintro (h | rfl)
      · exact h
      · exact hm
  · simp only [hc, if_false]
    simp [List.mem_append]

theorem mem_innerFold_fst (f : ModelField) (k : String) :
    ∀ (l : List String) (st : List String × List (String × RelationInfo)),
      k ∈ (l.foldl (addForeignKey f) st).1 ↔ k ∈ st.1 ∨ k ∈ l := by
  intro l
  induction l with
  | nil => intro st; simp
  | cons a as ih =>
    intro st
    show k ∈ (as.foldl (addForeignKey f) (addForeignKey f st a)).1 ↔ _
    rw [ih, mem_addForeignKey_fst]
    constructor
    · rintro ((h | rfl) | h)
      · exact Or.inl h
      · exact Or.inr (by simp)
      · exact Or.inr (by simp [h])
    · rintro (h | h)
      · exact Or.inl (Or.inl h)
      · rcases List.mem_cons.mp h with rfl | h
        · exact Or.inl (Or.inr rfl)
        · exact Or.inr h

theorem mem_processField_fst (st : List String × List (String × RelationInfo)) (f : ModelField)
    (k : String) : k ∈ (processField st f).1 ↔ k ∈ st.1 ∨ declaresKey k f = true := by
  unfold processField
  by_cases hg : declaresForeignKeys f
  · rw [if_pos hg, mem_innerFold_fst]
    unfold declaresKey
    simp [hg, List.elem_iff]
  · rw [if_neg hg]
    unfold declaresKey
    simp only [Bool.and_eq_true]
    constructor
    · exact Or.inl
    · rintro (h | ⟨h1, _⟩)
      · exact h
      · exact absurd h1 hg

theorem mem_fieldsFold_fst (k : String) :
    ∀ (fields : List ModelField) (st : List String × List (String × RelationInfo)),
      k ∈ (fields.foldl processField st).1 ↔
        k ∈ st.1 ∨ ∃ f, f ∈ fields ∧ declaresKey k f = true := by
  intro fields
  induction fields with
  | nil => intro st; simp
  | cons f fs ih =>
    intro st
    show k ∈ (fs.foldl processField (processField st f)).1 ↔ _
    rw [ih, mem_processField_fst]
    constructor
    · rintro ((h | h) | ⟨g, hg, hgk⟩)
      · exact Or.inl h
      · exact Or.inr ⟨f, by simp, h⟩
      · exact Or.inr ⟨g, by simp [hg], hgk⟩
    · rintro (h | ⟨g, hg, hgk⟩)
      · exact Or.inl (Or.inl h)
      · rcases List.mem_cons.mp hg with rfl | hg
        · exact Or.inl (Or.inr hgk)
        · exact Or.inr ⟨g, hg, hgk⟩

theorem noRelation_fieldsFold (fields : List ModelField)
    (h : ∀ f, f ∈ fields → declaresForeignKeys f = false) :
    ∀ st : List String × List (String × RelationInfo), fields.foldl processField st = st := by
  induction fields with
  | nil => intro st; rfl
  | cons f fs ih =>
    intro st
    show fs.foldl processField (processField st f) = st
    have hf : declaresForeignKeys f = false := h f (by simp)
    have : processField st f = st := by unfold processField; simp [hf]
    rw [this]
    exact ih (fun g hg => h g (by simp [hg])) st

/-- The recorded read-only flag of a `_relationFields` entry. -/
def flagOf (rm : List (String × RelationInfo)) (k : String) : Option Bool :=
  (getProp k rm).map RelationInfo.isReadOnly

theorem getProp_map_keyflag (g : String × RelationInfo → String × RelationInfo)
    (hkey : ∀ e, (g e).1 = e.1) (hflag : ∀ e, (g e).2.isReadOnly = e.2.isReadOnly)
    (rm : List (String × RelationInfo)) (k : String) :
    (getProp k (rm.map g)).map RelationInfo.isReadOnly
      = (getProp k rm).map RelationInfo.isReadOnly := by
  induction rm with
  | nil => rfl
  | cons e es ih =>
    rw [List.map_cons, getProp_cons, getProp_cons, hkey e]
    by_cases hek : e.1 = k
    · rw [if_pos hek, if_pos hek]
      simp [hflag e]
    · rw [if_neg hek, if_neg hek]
      exact ih

theorem flagOf_pushRelationName (rm : List (String × RelationInfo)) (fk rn k : String) :
    flagOf (pushRelationName rm fk rn) k = flagOf rm k := by
  unfold flagOf pushRelationName
  apply getProp_map_keyflag
  · intro e
    by_cases he : e.1 = fk <;> simp [he]
  · intro e
    by_cases he : e.1 = fk <;> simp [he]

theorem flagOf_insertIfAbsent (rm : List (String × RelationInfo)) (fk k : String) (b : Bool) :
    flagOf (if (getProp fk rm).isSome then rm else rm ++ [(fk, ⟨[], b⟩)]) k
      = optOr (flagOf rm k) (if fk = k then some b else none) := by
  by_cases hs : (getProp fk rm).isSome
  · rw [if_pos hs]
    by_cases hfk : fk = k
    · subst hfk
      cases hx : getProp fk rm with
      | none => rw [hx] at hs; simp at hs
      | some i => simp [flagOf, hx]
    · simp [hfk, optOr_none_right]
  · rw [if_neg hs]
    unfold flagOf
    rw [getProp_append, map_optOr]
    have : (getProp k [(fk, (⟨[], b⟩ : RelationInfo))]).map RelationInfo.isReadOnly
        = if fk = k then some b else none := by
      by_cases hfk : fk = k <;> simp [getProp, hfk]
    rw [this]

theorem flagOf_addForeignKey (f : ModelField) (st : List String × List (String × RelationInfo))
    (fk k : String) :
    flagOf (addForeignKey f st fk).2 k
      = optOr (flagOf st.2 k) (if fk = k then some f.isReadOnly else none) := by
  show flagOf (pushRelationName _ fk f.name) k = _
  rw [flagOf_pushRelationName]
  exact flagOf_insertIfAbsent st.2 fk k f.isReadOnly

theorem flagOf_innerFold (f : ModelField) (k : String) :
    ∀ (l : List String) (st : List String × List (String × RelationInfo)),
      flagOf (l.foldl (addForeignKey f) st).2 k
        = optOr (flagOf st.2 k) (if k ∈ l then some f.isReadOnly else none) := by
  intro l
  induction l with
  | nil => intro st; simp
  | cons a as ih =>
    intro st
    show flagOf (as.foldl (addForeignKey f) (addForeignKey f st a)).2 k = _
    rw [ih, flagOf_addForeignKey, optOr_assoc]
    congr 1
    by_cases hak : a = k
    · subst hak
      simp
    · have hka : ¬ (k = a) := fun h => hak h.symm
      by_cases hmem : k ∈ as <;> simp [hak, hka, hmem]

theorem flagOf_processField (st : List String × List (String × RelationInfo)) (f : ModelField)
    (k : String) :
    flagOf (processField st f).2 k
      = optOr (flagOf st.2 k) (if declaresKey k f = true then some f.isReadOnly else none) := by
  unfold processField
  by_cases hg : declaresForeignKeys f
  · rw [if_pos hg, flagOf_innerFold]
    congr 1
    unfold declaresKey
    by_cases hmem : k ∈ fromFieldsOf f
    · simp [hg, hmem, List.elem_iff.mpr hmem]
    · have : (fromFieldsOf f).contains k = false := by
        rw [← Bool.not_eq_true]
        exact fun hc => hmem (List.elem_iff.mp hc)
      simp [hg, hmem, this]
  · rw [if_neg hg]
    have : declaresKey k f = false := by
      unfold declaresKey
      simp [Bool.eq_false_iff.mpr hg]
    simp [this, optOr_none_right]

theorem flagOf_fieldsFold (k : String) :
    ∀ (fields : List ModelField) (st : List String × List (String × RelationInfo)),
      flagOf (fields.foldl processField st).2 k
        = optOr (flagOf st.2 k) ((fields.find? (declaresKey k)).map ModelField.isReadOnly) := by
  intro fields
  induction fields with
  | nil => intro st; simp
  | cons f fs ih =>
    intro st
    show flagOf (fs.foldl processField (processField st f)).2 k = _
    rw [ih, flagOf_processField, optOr_assoc]
    congr 1
    by_cases hf : declaresKey k f = true
    · rw [List.find?_cons_of_pos _ hf]
      simp [hf]
    · rw [List.find?_cons_of_neg _ hf]
      simp [hf]

/-! ## Field inclusion policy (`utils/helpers.ts`) -/

/-- The check of `helpers.ts` lines 56-62 (also inlined at
`create-dto.ts` lines 66-71 and `update-dto.ts` lines 64-69): the field
name is in `_foreignKeys` and its `_relationFields` entry exists and is
not read-only.  The `model._foreignKeys &&` / `model._relationFields &&`
guards of the source are the presence of the two enrichment maps, which
an `EnhancedModel` always carries. -/
def isForeignKeyWithWritableRelation (f : ModelField) (m : EnhancedModel) : Bool :=
  m.foreignKeys.contains f.name &&
    (match getProp f.name m.relationFieldMap with
     | some info => !info.isReadOnly
     | none => false)

/-- `shouldIncludeFieldInDto` (`helpers.ts` lines 36-76). -/
def shouldIncludeFieldInDto (f : ModelField) (m : EnhancedModel) (forUpdate : Bool) : Bool :=
  if f.isUpdatedAt then false
  else if f.isId && f.hasDefaultValue && !forUpdate then false
  else if f.kind = FieldKind.object then false
  else if f.isReadOnly then
    if isForeignKeyWithWritableRelation f m then true
    else if forUpdate then true
    else false
  else true

/-! ## DTO generators: emitted field sets

Only the field-set / shape decisions are embedded; decorator text, the
bookkeeping of imports and file writing are rendering. -/

/-- Names of the fields emitted into `Create<Model>Dto`
(`create-dto.ts` lines 48-56: skip system fields, then consult
`shouldIncludeFieldInDto` with `forUpdate = false`). -/
def createDtoFieldNames (m : EnhancedModel) (systemFields : List String) : List String :=
  (m.fields.filter
    (fun f => !systemFields.contains f.name && shouldIncludeFieldInDto f m false)).map
    ModelField.name

/-- Names of the fields emitted into `Update<Model>Dto`
(`update-dto.ts` lines 47-54). -/
def updateDtoFieldNames (m : EnhancedModel) (systemFields : List String) : List String :=
  (m.fields.filter
    (fun f => !systemFields.contains f.name && shouldIncludeFieldInDto f m true)).map
    ModelField.name

/-- Whether an emitted DTO field gets the `readonly` modifier
(`update-dto.ts` lines 64-69, identically `create-dto.ts` lines 66-71):
`field.isReadOnly && !(FK with writable relation)`. -/
def dtoFieldMarkedReadOnly (f : ModelField) (m : EnhancedModel) : Bool :=
  f.isReadOnly && !(isForeignKeyWithWritableRelation f m)

/-- A create-DTO field is optional iff `!field.isRequired || field.hasDefaultValue`
(`create-dto.ts` line 59). -/
def createDtoFieldOptional (f : ModelField) : Bool :=
  !f.isRequired || f.hasDefaultValue

/-- The primary-key candidate fields of the ID DTO
(`id-dto.ts` lines 33-50: system fields excluded, then `isId` or
membership in the composite `@@id`). -/
def idDtoPrimaryKeyFields (m : EnhancedModel) (systemFields : List String) : List ModelField :=
  m.fields.filter (fun f =>
    if systemFields.contains f.name then false
    else if f.isId then true
    else
      match m.primaryKey with
      | some pk => pk.fields.contains f.name
      | none => false)

/-- The fields emitted into `<Model>IdDto` (`id-dto.ts` lines 33-58):
the candidates, or, when they are empty, the field literally named
`id` if the model has one. -/
def idDtoFields (m : EnhancedModel) (systemFields : List String) : List ModelField :=
  let primaryKeyFields := idDtoPrimaryKeyFields m systemFields
  if primaryKeyFields.isEmpty then
    match m.fields.find? (fun f => f.name == "id") with
    | some f => [f]
    | none => []
  else primaryKeyFields

/-- `getOperatorsForFieldType` (`helpers.ts` lines 182-221), with each
operator's display description. -/
def getOperatorsForFieldType (fieldType : String) : List (String × String) :=
  if fieldType = "String" then [("equals", "equals")]
  else if fieldType = "Int" || fieldType = "Float" || fieldType = "Decimal" then
    [("equals", "equals"), ("gte", "greater than or equal"), ("lte", "less than or equal")]
  else if fieldType = "DateTime" then
    [("gte", "greater than or equal"), ("lte", "less than or equal")]
  else if fieldType = "Boolean" then [("equals", "equals")]
  else [("equals", "equals")]

/-- `String.prototype.endsWith` on ASCII identifiers, embedded as a
suffix test on the character lists. -/
def strEndsWith (s suffix : String) : Bool :=
  suffix.toList.isSuffixOf s.toList

/-- `field.name === 'id' || field.name.endsWith('Id')`
(`flat-query-dto.ts` line 63). -/
def isIdNamedField (f : ModelField) : Bool :=
  f.name == "id" || strEndsWith f.name "Id"

/-- The operator list the flat-query generator chooses for one field
(`flat-query-dto.ts` lines 60-74). -/
def flatQueryOperators (f : ModelField) : List (String × String) :=
  if isIdNamedField f then [("equals", "equals")]
  else if f.kind = FieldKind.enum then [("equals", "equals")]
  else getOperatorsForFieldType f.type

/-- Flat-query parameter name for one operator: bare field name for
`equals`, `name_op` otherwise (`flat-query-dto.ts` lines 77-80). -/
def flatQueryParamName (f : ModelField) (op : String) : String :=
  if op = "equals" then f.name else f.name ++ "_" ++ op

/-- All parameter names of `FlatQuery<Model>Dto`: the fixed pagination
parameters, then, for every non-relation field (`flat-query-dto.ts`
line 57 skips fields with a truthy `relationName`), one parameter per
chosen operator.  The generator takes no system-field list. -/
def flatQueryParamNames (m : EnhancedModel) : List String :=
  ["take", "skip"] ++
    ((m.fields.filter (fun f => !relationNameTruthy f)).map
      (fun f => (flatQueryOperators f).map (fun op => flatQueryParamName f op.1))).flatten

/-! ## Service generator: record addressing (`service-generator.ts` and the
system-field-aware service generator) -/

/-- `getPrismaWhereClause` of `service-generator.ts` (lines 85-97): wrap
the identifier parameters under the `_`-joined composite key name when
the model has a composite primary key of more than one field, otherwise
use the parameters directly. -/
def getPrismaWhereClause (m : EnhancedModel) (paramName : String) : String :=
  match m.primaryKey with
  | some pk =>
    if 1 < pk.fields.length then
      "\x7b " ++ String.intercalate "_" pk.fields ++ ": " ++ paramName ++ " \x7d"
    else paramName
  | none => paramName

/-- `model.primaryKey ? model.primaryKey.fields : []` as computed inside
the system-field-aware `getPrismaWhereClause`. -/
def clausePrimaryKeyFields (m : EnhancedModel) : List String :=
  match m.primaryKey with
  | some pk => pk.fields
  | none => []

/-- The system-field-aware `getPrismaWhereClause` (three-argument
version): first substitute the system-field values into the client
parameter object, then wrap under the composite key name when needed. -/
def getPrismaWhereClauseSys (m : EnhancedModel) (paramName : String)
    (systemFieldsInPK : List String) : String :=
  let primaryKeyFields := clausePrimaryKeyFields m
  let whereClause :=
    if 0 < systemFieldsInPK.length then
      if systemFieldsInPK.length < primaryKeyFields.length then
        "\x7b..." ++ paramName ++ ", " ++ String.intercalate ", " systemFieldsInPK ++ "\x7d"
      else
        "\x7b" ++ String.intercalate ", " systemFieldsInPK ++ "\x7d"
    else paramName
  if 1 < primaryKeyFields.length then
    "\x7b " ++ String.intercalate "_" primaryKeyFields ++ ": " ++ whereClause ++ " \x7d"
  else whereClause

/-- The primary-key field names as `generateFindMethod` computes them:
`model.primaryKey ? fields : [model.fields.find(f => f.isId)?.name].filter(Boolean)`. -/
def findMethodPrimaryKeyFields (m : EnhancedModel) : List String :=
  match m.primaryKey with
  | some pk => pk.fields
  | none =>
    match m.fields.find? (fun f => f.isId) with
    | some f => [f.name]
    | none => []

/-- `systemFields.filter(field => primaryKeyFields.includes(field))`
of `generateFindMethod`. -/
def systemFieldsInPrimaryKey (m : EnhancedModel) (systemFields : List String) : List String :=
  systemFields.filter (fun s => (findMethodPrimaryKeyFields m).contains s)

/-- JS object-literal semantics of the (pre-composite-wrapping) where
expression emitted by `getPrismaWhereClauseSys`, evaluated against the
client parameter object `params` and the system-context values `sysVal`:
`\x7b...params, a, b\x7d` spreads the client object then writes each system
field, `\x7ba, b\x7d` writes only the system fields, and with no system
fields in the primary key the client object is used as is. -/
def whereClauseObject {V : Type} (params : List (String × V)) (sysVal : String → V)
    (sysPK : List String) (primaryKeyFields : List String) : List (String × V) :=
  if 0 < sysPK.length then
    if sysPK.length < primaryKeyFields.length then
      spreadInto params (sysPK.map (fun s => (s, sysVal s)))
    else
      spreadInto [] (sysPK.map (fun s => (s, sysVal s)))
  else params

/-! ## JSON companion DTO generation (`json-field-dto.ts`)

The file system is embedded as an association list of path → content;
`fs.access` is a lookup, `fs.writeFile` a property write.  `fs.mkdir`
and the console logs have no effect on the file map. -/

/-- `fieldName.replace(/([a-z])([A-Z])/g, '$1-$2')`: insert a dash
between a lowercase letter and the uppercase letter following it. -/
def kebabInsertDashes : List Char → List Char
  | [] => []
  | [c] => [c]
  | a :: b :: rest =>
    if a.isLower && b.isUpper then a :: '-' :: kebabInsertDashes (b :: rest)
    else a :: kebabInsertDashes (b :: rest)

/-- `fieldNameToKebabCase` (`helpers.ts` lines 281-283): dash insertion
then `toLowerCase`, character by character (ASCII field names). -/
def fieldNameToKebabCase (fieldName : String) : String :=
  String.mk ((kebabInsertDashes fieldName.toList).map Char.toLower)

/-- `getJsonFieldDtoName` (`helpers.ts` lines 255-259): PascalCase the
field name and append `Dto`. -/
def getJsonFieldDtoName (fieldName : String) : String :=
  match fieldName.toList with
  | [] => "Dto"
  | c :: rest => String.mk (c.toUpper :: rest) ++ "Dto"

/-- `getApiPropertyConfigName` (`helpers.ts` lines 265-267). -/
def getApiPropertyConfigName (dtoTypeName : String) : String :=
  dtoTypeName ++ "ApiProperty"

/-- Target path of a JSON field's companion DTO:
`path.join(outputDir, 'dto', kebab(fieldName) + '.dto.ts')`. -/
def jsonFieldDtoFilePath (outputDir : String) (f : ModelField) : String :=
  outputDir ++ "/dto/" ++ fieldNameToKebabCase f.name ++ ".dto.ts"

/-- The generated companion-DTO file content (`json-field-dto.ts`
lines 56-81), with the template's brace and quote characters escaped. -/
def jsonFieldDtoContent (m : EnhancedModel) (f : ModelField) : String :=
  let dtoClassName := getJsonFieldDtoName f.name
  let apiPropertyConfigName := getApiPropertyConfigName dtoClassName
  String.intercalate "\n" [
    "\x69mport \x7b ApiPropertyOptions \x7d from \x27@nestjs/swagger/dist/decorators/api-property.decorator\x27;",
    "\x69mport \x7b ApiProperty \x7d from \x27@nestjs/swagger\x27;",
    "",
    "/**",
    " * DTO for " ++ f.name ++ " JSON field in " ++ m.name,
    " *",
    " * This file is auto-generated but will NOT be overwritten on subsequent generations.",
    " * You can safely add your custom fields and validation here.",
    " *",
    " * Example structure:",
    " * export class " ++ dtoClassName ++ " \x7b",
    " *   @ApiProperty()",
    " *   someField?: string;",
    " *",
    " *   @ApiProperty()",
    " *   anotherField?: number;",
    " * \x7d",
    " */",
    "export class " ++ dtoClassName ++ " \x7b",
    "  // Add your custom fields here",
    "\x7d",
    "",
    "export const " ++ apiPropertyConfigName ++ ": ApiPropertyOptions = \x7b",
    "  type: " ++ dtoClassName ++ ",",
    "\x7d;"] ++ "\n"

/-- File-system state: map from path to file content. -/
abbrev FsState := List (String × String)

/-- `fs.access(filePath)` succeeding = the path is present. -/
def fsFileExists (fs : FsState) (p : String) : Bool :=
  (getProp p fs).isSome

/-- `fs.writeFile(filePath, content)`. -/
def fsWriteFile (fs : FsState) (p content : String) : FsState :=
  setProp fs p content

/-- `generateJsonFieldDto` (`json-field-dto.ts` lines 34-86) as a
file-system transition: if the companion file exists, return (no
write); otherwise create it with the generated content. -/
def generateJsonFieldDto (m : EnhancedModel) (f : ModelField) (outputDir : String)
    (fs : FsState) : FsState :=
  let filePath := jsonFieldDtoFilePath outputDir f
  if fsFileExists fs filePath then fs
  else fsWriteFile fs filePath (jsonFieldDtoContent m f)

/-! ## Definitions stated from the spec's words (for comparison with the
code-derived definitions) -/

/-- The flag claim C1 predicts, stated from the spec's words: the
`isReadOnly` of the LAST relation field, in declaration order, whose
`relationFromFields` contain `k`. -/
def lastDeclaringRelationFlag (m : Model) (k : String) : Option Bool :=
  ((m.fields.filter (declaresKey k)).getLast?).map ModelField.isReadOnly

/-- The identifier field set stated from the spec's words (claim C6):
candidates are the fields with `isIdentifier` or named in the composite
primary key, minus system fields; when empty, the singleton field
literally named `id` if present, else empty. -/
def idFieldSetSpec (m : EnhancedModel) (systemFields : List String) : List ModelField :=
  let candidates := m.fields.filter (fun f =>
    (f.isId ||
      (match m.primaryKey with
       | some pk => pk.fields.contains f.name
       | none => false))
    && !systemFields.contains f.name)
  if candidates = [] then
    match m.fields.find? (fun f => f.name == "id") with
    | some f => [f]
    | none => []
  else candidates

/-! ## Fixture models -/

/-- A plain scalar field with the given name and scalar type; the other
attributes are the common defaults of a required, writable column. -/
def baseField (name type : String) : ModelField :=
  { name := name
    type := type
    kind := FieldKind.scalar
    isId := false
    isRequired := true
    hasDefaultValue := false
    isReadOnly := false
    isUpdatedAt := false
    isList := false
    relationName := none
    relationFromFields := none }

def c1FkField : ModelField := { baseField "productId" "Int" with isReadOnly := true }

/-- First relation field over `productId`: not read-only. -/
def c1Rel1 : ModelField :=
  { baseField "productA" "Product" with
    kind := FieldKind.object
    relationName := some "RelA"
    relationFromFields := some ["productId"] }

/-- Second relation field over the same `productId`: read-only. -/
def c1Rel2 : ModelField :=
  { baseField "productB" "Product" with
    kind := FieldKind.object
    isReadOnly := true
    relationName := some "RelB"
    relationFromFields := some ["productId"] }

/-- Two relation fields sharing one foreign key with conflicting
read-only flags, the non-read-only one declared first. -/
def c1Model : Model :=
  { name := "OrderItem", fields := [c1FkField, c1Rel1, c1Rel2], primaryKey := none }

def c2Rel : ModelField :=
  { baseField "order" "Order" with
    kind := FieldKind.object
    relationName := some "OrderRel"
    relationFromFields := some ["orderId", "orderTenantId"] }

def c2Model : Model :=
  { name := "OrderItem"
    fields := [baseField "orderId" "Int", baseField "orderTenantId" "Int", c2Rel]
    primaryKey := none }

def c2NoRel : Model :=
  { name := "Tag", fields := [baseField "id" "Int", baseField "label" "String"]
    primaryKey := none }

/-! ## Claim theorems -/

/-- C1, counterexample: in `c1Model` the foreign key `productId` is
declared by two relation fields, the first not read-only and the last
read-only; the enrichment records `relationIsReadOnly = false` (the
FIRST relation field's flag), while the claim predicts the LAST one's
flag, `true`. -/
theorem c1_counterexample :
    flagOf (enhanceModel c1Model).relationFieldMap "productId" = some false
    ∧ lastDeclaringRelationFlag c1Model "productId" = some true := by
  constructor <;> rfl

/-- C1 (amended): for every model and foreign-key name `k`, the recorded
`relationIsReadOnly` flag for `k` equals the `isReadOnly` flag of the
FIRST relation field, in field-declaration order, whose
`relationFromFields` contain `k` (the entry is created on first
occurrence and later occurrences only append to the dependent relation
names); the entry exists exactly when some relation field declares `k`. -/
theorem c1_amended_first_writer_wins (m : Model) (k : String) :
    flagOf (enhanceModel m).relationFieldMap k
      = (m.fields.find? (declaresKey k)).map ModelField.isReadOnly := by
  show flagOf (m.fields.foldl processField ([], [])).2 k = _
  rw [flagOf_fieldsFold]
  rfl

/-- C2: the enriched `_foreignKeys` set of a model is exactly the union
of `relationFromFields` over its relation fields — every declared source
field is in the set and every member is declared by some relation field
— and a model with no relation fields gets the empty set. -/
theorem c2_foreignKeys_exact_union (m : Model) :
    (∀ k, k ∈ (enhanceModel m).foreignKeys ↔
        ∃ f, f ∈ m.fields ∧ declaresForeignKeys f = true ∧ k ∈ fromFieldsOf f)
    ∧ ((∀ f, f ∈ m.fields → declaresForeignKeys f = false) →
        (enhanceModel m).foreignKeys = []) := by
  constructor
  · intro k
    show k ∈ (m.fields.foldl processField ([], [])).1 ↔ _
    rw [mem_fieldsFold_fst]
    simp only [List.not_mem_nil, false_or]
    constructor
    · rintro ⟨f, hf, hd⟩
      unfold declaresKey at hd
      rw [Bool.and_eq_true] at hd
      exact ⟨f, hf, hd.1, List.elem_iff.mp hd.2⟩
    · rintro ⟨f, hf, h1, h2⟩
      refine ⟨f, hf, ?_⟩
      unfold declaresKey
      rw [Bool.and_eq_true]
      exact ⟨h1, List.elem_iff.mpr h2⟩
  · intro h
    show (m.fields.foldl processField ([], [])).1 = []
    rw [noRelation_fieldsFold m.fields h]

/-- C2, witness: in `c2Model` the declared source field `orderTenantId`
is a foreign key, and the relation-free `c2NoRel` has an empty set. -/
theorem c2_witness :
    "orderTenantId" ∈ (enhanceModel c2Model).foreignKeys
    ∧ (enhanceModel c2NoRel).foreignKeys = [] :=
  ⟨((c2_foreignKeys_exact_union c2Model).1 "orderTenantId").mpr
      ⟨c2Rel, by decide, by decide, by decide⟩,
    (c2_foreignKeys_exact_union c2NoRel).2 (by decide)⟩

/-- A model whose `tenantId` scalar is configured as a system field. -/
def c3Model : EnhancedModel :=
  { name := "User"
    fields := [baseField "tenantId" "String", baseField "email" "String"]
    primaryKey := none
    foreignKeys := []
    relationFieldMap := [] }

/-- C3, counterexample: with `systemFields = ["tenantId"]`, the
flat-query artifact of `c3Model` still emits a parameter named
`tenantId` — the flat-query generator takes no system-field list — so a
system-field name does appear in one of the claimed artifact kinds. -/
theorem c3_counterexample :
    "tenantId" ∈ (["tenantId"] : List String)
    ∧ "tenantId" ∈ flatQueryParamNames c3Model := by
  constructor <;> decide

/-- C3 (amended): a system-field name never appears among the emitted
create-input or update-input field names, and never among the identifier
fields except through the `id` fallback (which does not re-check the
system list); the flat-query shape is NOT covered — its generator never
consults the system-field list. -/
theorem c3_amended_system_fields_excluded (m : EnhancedModel) (sys : List String) (s : String)
    (h : s ∈ sys) :
    s ∉ createDtoFieldNames m sys
    ∧ s ∉ updateDtoFieldNames m sys
    ∧ (s ≠ "id" → ∀ f ∈ idDtoFields m sys, f.name ≠ s) := by
  have hcontains : sys.contains s = true := List.elem_iff.mpr h
  refine ⟨?_, ?_, ?_⟩
  · intro hmem
    unfold createDtoFieldNames at hmem
    rcases List.mem_map.mp hmem with ⟨f, hf, hfs⟩
    rcases List.mem_filter.mp hf with ⟨_, hpred⟩
    rw [Bool.and_eq_true, Bool.not_eq_eq_eq_not, Bool.not_true] at hpred
    have hcf : sys.contains f.name = true := by rw [hfs]; exact hcontains
    rw [hcf] at hpred
    simp at hpred
  · intro hmem
    unfold updateDtoFieldNames at hmem
    rcases List.mem_map.mp hmem with ⟨f, hf, hfs⟩
    rcases List.mem_filter.mp hf with ⟨_, hpred⟩
    rw [Bool.and_eq_true, Bool.not_eq_eq_eq_not, Bool.not_true] at hpred
    have hcf : sys.contains f.name = true := by rw [hfs]; exact hcontains
    rw [hcf] at hpred
    simp at hpred
  · intro hid f hf
    unfold idDtoFields at hf
    by_cases hemp : (idDtoPrimaryKeyFields m sys).isEmpty
    · rw [if_pos hemp] at hf
      cases hfind : m.fields.find? (fun g => g.name == "id") with
      | none => rw [hfind] at hf; cases hf
      | some g =>
        rw [hfind] at hf
        have hg : f = g := by
          rcases List.mem_singleton.mp hf with rfl
          rfl
        have hgname : g.name = "id" := by
          have h2 := List.find?_some hfind
          simpa using h2
        rw [hg, hgname]
        exact fun hc => hid hc.symm
    · rw [if_neg hemp] at hf
      rcases List.mem_filter.mp hf with ⟨_, hpred⟩
      intro hfs
      rw [hfs, hcontains] at hpred
      simp at hpred

/-- C3, witness: the amended exclusions instantiated at `c3Model` with
`systemFields = ["tenantId"]`. -/
theorem c3_witness :
    "tenantId" ∉ createDtoFieldNames c3Model ["tenantId"]
    ∧ "tenantId" ∉ updateDtoFieldNames c3Model ["tenantId"]
    ∧ ("tenantId" ≠ "id" → ∀ f ∈ idDtoFields c3Model ["tenantId"], f.name ≠ "tenantId") :=
  c3_amended_system_fields_excluded c3Model ["tenantId"] "tenantId" (by decide)

def c4Fk : ModelField := { baseField "productId" "Int" with isReadOnly := true }

def c4Rel : ModelField :=
  { baseField "product" "Product" with
    kind := FieldKind.object
    relationName := some "ProductRel"
    relationFromFields := some ["productId"] }

/-- A read-only foreign-key scalar whose owning relation is writable. -/
def c4Raw : Model :=
  { name := "OrderItem", fields := [c4Fk, c4Rel], primaryKey := none }

/-- C4: a read-only field that is a foreign key whose
`relationFieldMap` entry records `relationIsReadOnly = false` — and is
not an auto-updated timestamp, not a system field, not a relation
object, and not an auto-generated identifier — is included in the
create input. -/
theorem c4_fk_writable_relation_included_in_create (f : ModelField) (m : EnhancedModel)
    (sys : List String)
    (hro : f.isReadOnly = true)
    (hfk : m.foreignKeys.contains f.name = true)
    (hflag : flagOf m.relationFieldMap f.name = some false)
    (hts : f.isUpdatedAt = false)
    (hsys : sys.contains f.name = false)
    (hobj : f.kind ≠ FieldKind.object)
    (hid : ¬ (f.isId = true ∧ f.hasDefaultValue = true)) :
    shouldIncludeFieldInDto f m false = true
    ∧ (f ∈ m.fields → f.name ∈ createDtoFieldNames m sys) := by
  have hwritable : isForeignKeyWithWritableRelation f m = true := by
    unfold isForeignKeyWithWritableRelation
    unfold flagOf at hflag
    rcases Option.map_eq_some'.mp hflag with ⟨info, hinfo, hflagval⟩
    rw [hfk, hinfo, Bool.true_and]
    show (!info.isReadOnly) = true
    rw [hflagval]
    rfl
  have hidd : (f.isId && f.hasDefaultValue) = false := by
    cases hI : f.isId
    · rfl
    · cases hD : f.hasDefaultValue
      · rfl
      · exact absurd ⟨hI, hD⟩ hid
  have hdecision : shouldIncludeFieldInDto f m false = true := by
    unfold shouldIncludeFieldInDto
    rw [hts, hro, hwritable]
    simp [hidd, hobj]
  refine ⟨hdecision, fun hmem => ?_⟩
  unfold createDtoFieldNames
  refine List.mem_map.mpr ⟨f, List.mem_filter.mpr ⟨hmem, ?_⟩, rfl⟩
  rw [Bool.and_eq_true, hdecision, hsys]
  exact ⟨rfl, rfl⟩

/-- C4, witness: `productId` in `c4Raw` — read-only scalar foreign key
of a writable relation — passes the create-input decision and is
emitted. -/
theorem c4_witness :
    shouldIncludeFieldInDto c4Fk (enhanceModel c4Raw) false = true
    ∧ (c4Fk ∈ (enhanceModel c4Raw).fields →
        c4Fk.name ∈ createDtoFieldNames (enhanceModel c4Raw) ["tenantId"]) :=
  c4_fk_writable_relation_included_in_create c4Fk (enhanceModel c4Raw) ["tenantId"]
    rfl (by decide) (by decide) rfl (by decide) (by decide) (by decide)

def c5Field : ModelField := { baseField "legacyCode" "String" with isReadOnly := true }

/-- A plain read-only scalar that is not a foreign key. -/
def c5Raw : Model := { name := "Product", fields := [c5Field], primaryKey := none }

/-- C5: a read-only field that is NOT a foreign key with a writable
relation (and is not an auto-updated timestamp or a relation object) is
excluded by the shared decision function for the create input
(`forUpdate = false` gives `false`) and included for the update input
(`forUpdate = true` gives `true`), where the emitted field carries the
read-only marking; when it is a (non-system) field of the model it
really appears among the update-DTO field names. -/
theorem c5_readonly_update_only (f : ModelField) (m : EnhancedModel) (sys : List String)
    (hro : f.isReadOnly = true)
    (hnw : isForeignKeyWithWritableRelation f m = false)
    (hts : f.isUpdatedAt = false)
    (hobj : f.kind ≠ FieldKind.object)
    (hsys : sys.contains f.name = false) :
    shouldIncludeFieldInDto f m false = false
    ∧ shouldIncludeFieldInDto f m true = true
    ∧ dtoFieldMarkedReadOnly f m = true
    ∧ (f ∈ m.fields → f.name ∈ updateDtoFieldNames m sys) := by
  have hupdate : shouldIncludeFieldInDto f m true = true := by
    unfold shouldIncludeFieldInDto
    rw [hts, hro, hnw]
    simp [hobj]
  refine ⟨?_, hupdate, ?_, fun hmem => ?_⟩
  · unfold shouldIncludeFieldInDto
    rw [hts, hro, hnw]
    cases hI : (f.isId && f.hasDefaultValue) <;> simp [hI, hobj]
  · unfold dtoFieldMarkedReadOnly
    rw [hro, hnw]
    rfl
  · unfold updateDtoFieldNames
    refine List.mem_map.mpr ⟨f, List.mem_filter.mpr ⟨hmem, ?_⟩, rfl⟩
    rw [Bool.and_eq_true, hupdate, hsys]
    exact ⟨rfl, rfl⟩

/-- C5, witness: the plain read-only `legacyCode` of `c5Raw` is kept out
of the create input, kept in the update input, and marked read-only. -/
theorem c5_witness :
    shouldIncludeFieldInDto c5Field (enhanceModel c5Raw) false = false
    ∧ shouldIncludeFieldInDto c5Field (enhanceModel c5Raw) true = true
    ∧ dtoFieldMarkedReadOnly c5Field (enhanceModel c5Raw) = true
    ∧ (c5Field ∈ (enhanceModel c5Raw).fields →
        c5Field.name ∈ updateDtoFieldNames (enhanceModel c5Raw) ["tenantId"]) :=
  c5_readonly_update_only c5Field (enhanceModel c5Raw) ["tenantId"]
    rfl (by decide) rfl (by decide) (by decide)

theorem ite_isEmpty_eq_ite_nil (l X : List ModelField) :
    (if l.isEmpty then X else l) = (if l = [] then X else l) := by
  cases l <;> simp

/-- C6: the ID-DTO field set computed by the generator equals the
spec-described set: single-field identifiers or composite-primary-key
members minus system fields, with the literal-`id` fallback when that
candidate set is empty, and the empty set when no `id` field exists. -/
theorem c6_idDtoFields_eq_spec (m : EnhancedModel) (sys : List String) :
    idDtoFields m sys = idFieldSetSpec m sys := by
  simp only [idDtoFields, idFieldSetSpec, idDtoPrimaryKeyFields]
  have hfun :
      (fun f : ModelField =>
        if sys.contains f.name then false
        else if f.isId then true
        else
          match m.primaryKey with
          | some pk => pk.fields.contains f.name
          | none => false)
      = (fun f : ModelField =>
        (f.isId ||
          (match m.primaryKey with
           | some pk => pk.fields.contains f.name
           | none => false))
        && !sys.contains f.name) := by
    funext f
    cases hs : sys.contains f.name <;> cases hi : f.isId <;> cases m.primaryKey <;> simp
  rw [hfun, ite_isEmpty_eq_ite_nil]

def c7pk : PrimaryKey := ⟨["a", "b"]⟩

/-- A model with a two-field composite primary key. -/
def c7Model : EnhancedModel :=
  { name := "Pair"
    fields := [baseField "a" "Int", baseField "b" "Int"]
    primaryKey := some c7pk
    foreignKeys := []
    relationFieldMap := [] }

/-- A model addressed by a single identifier field. -/
def c7Single : EnhancedModel :=
  { name := "User"
    fields := [{ baseField "id" "Int" with isId := true }]
    primaryKey := none
    foreignKeys := []
    relationFieldMap := [] }

/-- C7: with a composite primary key of more than one field the where
clause is a single object keyed by the `_`-joined field names (in
declaration order) wrapping the identifier parameters; with a
single-field identifier the parameters are used directly; and with no
system fields the system-field-aware version emits the same clause. -/
theorem c7_composite_key_addressing (m : EnhancedModel) (p : String) :
    (∀ pk, m.primaryKey = some pk → 1 < pk.fields.length →
        getPrismaWhereClause m p
          = "\x7b " ++ String.intercalate "_" pk.fields ++ ": " ++ p ++ " \x7d")
    ∧ ((∀ pk, m.primaryKey = some pk → pk.fields.length ≤ 1) →
        getPrismaWhereClause m p = p)
    ∧ getPrismaWhereClauseSys m p [] = getPrismaWhereClause m p := by
  refine ⟨?_, ?_, ?_⟩
  · intro pk hpk hlen
    simp [getPrismaWhereClause, hpk, hlen]
  · intro hle
    cases hpk : m.primaryKey with
    | none => simp [getPrismaWhereClause, hpk]
    | some pk =>
      have h1 := hle pk hpk
      have hn : ¬ (1 < pk.fields.length) := by omega
      simp [getPrismaWhereClause, hpk, hn]
  · cases hpk : m.primaryKey with
    | none =>
      simp [getPrismaWhereClauseSys, getPrismaWhereClause, clausePrimaryKeyFields, hpk]
    | some pk =>
      by_cases hlen : 1 < pk.fields.length
      · simp [getPrismaWhereClauseSys, getPrismaWhereClause, clausePrimaryKeyFields, hpk, hlen]
      · simp [getPrismaWhereClauseSys, getPrismaWhereClause, clausePrimaryKeyFields, hpk, hlen]

/-- C7, witness: composite key `[a, b]` yields the address keyed by
`a_b`; the single-identifier model passes its parameters through. -/
theorem c7_witness :
    getPrismaWhereClause c7Model "params" = "\x7b a_b: params \x7d"
    ∧ getPrismaWhereClause c7Single "params" = "params" :=
  ⟨by rw [(c7_composite_key_addressing c7Model "params").1 c7pk rfl (by decide)]; rfl,
    (c7_composite_key_addressing c7Single "params").2.1 (fun pk h => by cases h)⟩

theorem length_lt_of_nodup_subset_missing (l₁ l₂ : List String)
    (h₁ : l₁.Nodup) (h₂ : l₂.Nodup) (hsub : ∀ x ∈ l₁, x ∈ l₂) (x : String)
    (hx₂ : x ∈ l₂) (hx₁ : x ∉ l₁) : l₁.length < l₂.length := by
  have hc₁ : l₁.toFinset.card = l₁.length := List.toFinset_card_of_nodup h₁
  have hc₂ : l₂.toFinset.card = l₂.length := List.toFinset_card_of_nodup h₂
  have hss : l₁.toFinset ⊂ l₂.toFinset := by
    rw [Finset.ssubset_def]
    constructor
    · intro y hy
      rw [List.mem_toFinset] at hy ⊢
      exact hsub y hy
    · intro hcon
      have hx : x ∈ l₁.toFinset := hcon (List.mem_toFinset.mpr hx₂)
      exact hx₁ (List.mem_toFinset.mp hx)
  calc l₁.length = l₁.toFinset.card := hc₁.symm
    _ < l₂.toFinset.card := Finset.card_lt_card hss
    _ = l₂.length := hc₂

def c8pk : PrimaryKey := ⟨["tenantId", "id"]⟩

/-- A model whose composite primary key mixes the system field
`tenantId` with the client-supplied `id`. -/
def c8m : EnhancedModel :=
  { name := "User"
    fields := [baseField "tenantId" "String", baseField "id" "String"]
    primaryKey := some c8pk
    foreignKeys := []
    relationFieldMap := [] }

/-- Client-supplied identifier parameters, including an attempt to
override the system field. -/
def c8params : List (String × String) := [("id", "client-id"), ("tenantId", "attacker-tenant")]

def c8sysVal : String → String := fun _ => "context-tenant"

/-- C8: when the primary key contains at least one system field, the
constructed address maps every system-field component to its
system-derived value — even when the client parameters carry a colliding
entry — and maps every non-system primary-key component to the
client-supplied value (the lists are duplicate-free, as field-name lists
of a schema are). -/
theorem c8_system_fields_take_precedence {V : Type} (params : List (String × V))
    (sysVal : String → V) (m : EnhancedModel) (pk : PrimaryKey) (systemFields : List String)
    (hpk : m.primaryKey = some pk)
    (hnd : pk.fields.Nodup)
    (hnds : systemFields.Nodup)
    (hmix : ∃ k, k ∈ pk.fields ∧ k ∈ systemFields) :
    (∀ k, k ∈ systemFieldsInPrimaryKey m systemFields →
        getProp k (whereClauseObject params sysVal
          (systemFieldsInPrimaryKey m systemFields) pk.fields) = some (sysVal k))
    ∧ (∀ k, k ∈ pk.fields → k ∉ systemFields →
        getProp k (whereClauseObject params sysVal
          (systemFieldsInPrimaryKey m systemFields) pk.fields) = getProp k params) := by
  have hfm : findMethodPrimaryKeyFields m = pk.fields := by
    unfold findMethodPrimaryKeyFields
    rw [hpk]
  have hsysdef : systemFieldsInPrimaryKey m systemFields
      = systemFields.filter (fun s => pk.fields.contains s) := by
    unfold systemFieldsInPrimaryKey
    rw [hfm]
  rw [hsysdef]
  set sp := systemFields.filter (fun s => pk.fields.contains s) with hsp
  have hspnd : sp.Nodup := by
    rw [hsp]
    exact hnds.filter _
  have hspsub : ∀ x ∈ sp, x ∈ pk.fields := by
    intro x hx
    rw [hsp] at hx
    exact List.elem_iff.mp (List.mem_filter.mp hx).2
  have hne : 0 < sp.length := by
    rcases hmix with ⟨k, hk1, hk2⟩
    have hk : k ∈ sp := by
      rw [hsp]
      exact List.mem_filter.mpr ⟨hk2, List.elem_iff.mpr hk1⟩
    exact List.length_pos_of_mem hk
  constructor
  · intro k hk
    unfold whereClauseObject
    rw [if_pos hne]
    by_cases hlt : sp.length < pk.fields.length
    · rw [if_pos hlt]
      exact getProp_spreadInto_keyed sysVal sp k hk params
    · rw [if_neg hlt]
      exact getProp_spreadInto_keyed sysVal sp k hk []
  · intro k hk hks
    have hnot : k ∉ sp := by
      rw [hsp]
      intro hmem
      exact hks (List.mem_filter.mp hmem).1
    have hlt : sp.length < pk.fields.length :=
      length_lt_of_nodup_subset_missing sp pk.fields hspnd hnd hspsub k hk hnot
    unfold whereClauseObject
    rw [if_pos hne, if_pos hlt]
    apply getProp_spreadInto_not_mem
    intro e he
    rcases List.mem_map.mp he with ⟨s, hs, rfl⟩
    intro hek
    exact hnot (hek ▸ hs)

/-- C8, witness: for the `[tenantId, id]` key with `tenantId` a system
field, the address takes `tenantId` from the system context even though
the client sent a colliding value, and takes `id` from the client. -/
theorem c8_witness :
    getProp "tenantId" (whereClauseObject c8params c8sysVal
        (systemFieldsInPrimaryKey c8m ["tenantId"]) c8pk.fields) = some (c8sysVal "tenantId")
    ∧ getProp "id" (whereClauseObject c8params c8sysVal
        (systemFieldsInPrimaryKey c8m ["tenantId"]) c8pk.fields) = getProp "id" c8params :=
  ⟨(c8_system_fields_take_precedence c8params c8sysVal c8m c8pk ["tenantId"]
      rfl (by decide) (by decide) ⟨"tenantId", by decide, by decide⟩).1 "tenantId" (by decide),
    (c8_system_fields_take_precedence c8params c8sysVal c8m c8pk ["tenantId"]
      rfl (by decide) (by decide) ⟨"tenantId", by decide, by decide⟩).2 "id"
      (by decide) (by decide)⟩

/-- A `DateTime` column whose name is not identifier-like. -/
def c9CreatedAt : ModelField := { baseField "createdAt" "DateTime" with hasDefaultValue := true }

/-- An `Int` column whose name ends in `Id`. -/
def c9UserId : ModelField := baseField "userId" "Int"

/-- C9: in the flat-query shape, a scalar `DateTime` field not named
`id` and not ending in `Id` gets exactly the operators `gte` and `lte`
and never `equals`; a field named `id` or ending in `Id` gets exactly
`equals`, whatever its scalar type. -/
theorem c9_flat_query_operator_policy (f : ModelField) :
    (f.type = "DateTime" → f.kind = FieldKind.scalar → f.name ≠ "id" →
        strEndsWith f.name "Id" = false →
        ((flatQueryOperators f).map Prod.fst = ["gte", "lte"]
          ∧ "equals" ∉ (flatQueryOperators f).map Prod.fst))
    ∧ ((f.name = "id" ∨ strEndsWith f.name "Id" = true) →
        (flatQueryOperators f).map Prod.fst = ["equals"]) := by
  constructor
  · intro htype hkind hname hends
    have hops : flatQueryOperators f
        = [("gte", "greater than or equal"), ("lte", "less than or equal")] := by
      simp [flatQueryOperators, isIdNamedField, hends, hname, hkind,
        getOperatorsForFieldType, htype]
    rw [hops]
    constructor
    · rfl
    · decide
  · intro h
    have hid : isIdNamedField f = true := by
      unfold isIdNamedField
      rcases h with h | h
      · rw [h]
        rfl
      · rw [h]
        simp
    unfold flatQueryOperators
    rw [hid]
    rfl

/-- C9, witness: `createdAt : DateTime` gets `gte`/`lte` and no
`equals`; `userId : Int` gets `equals` only. -/
theorem c9_witness :
    ((flatQueryOperators c9CreatedAt).map Prod.fst = ["gte", "lte"]
      ∧ "equals" ∉ (flatQueryOperators c9CreatedAt).map Prod.fst)
    ∧ (flatQueryOperators c9UserId).map Prod.fst = ["equals"] :=
  ⟨(c9_flat_query_operator_policy c9CreatedAt).1 rfl rfl (by decide) (by decide),
    (c9_flat_query_operator_policy c9UserId).2 (Or.inr (by decide))⟩

/-- A JSON column and its model. -/
def c10f : ModelField := { baseField "metadata" "Json" with isRequired := false }

def c10m : EnhancedModel :=
  { name := "Product"
    fields := [c10f]
    primaryKey := none
    foreignKeys := []
    relationFieldMap := [] }

/-- A file system already holding a (user-customised) companion file. -/
def c10fsExisting : FsState :=
  [(jsonFieldDtoFilePath "out" c10f, "// user customised")]

/-- C10: companion-DTO generation is generate-once — an existing file is
left untouched (no write at all), a second run after any run changes
nothing, and the file is created with the generated content exactly when
absent. -/
theorem c10_json_companion_generate_once (m : EnhancedModel) (f : ModelField) (out : String) :
    (∀ fs : FsState, fsFileExists fs (jsonFieldDtoFilePath out f) = true →
        generateJsonFieldDto m f out fs = fs)
    ∧ (∀ fs : FsState,
        generateJsonFieldDto m f out (generateJsonFieldDto m f out fs)
          = generateJsonFieldDto m f out fs)
    ∧ (∀ fs : FsState, fsFileExists fs (jsonFieldDtoFilePath out f) = false →
        getProp (jsonFieldDtoFilePath out f) (generateJsonFieldDto m f out fs)
          = some (jsonFieldDtoContent m f)) := by
  refine ⟨?_, ?_, ?_⟩
  · intro fs h
    simp [generateJsonFieldDto, h]
  · intro fs
    by_cases h : fsFileExists fs (jsonFieldDtoFilePath out f) = true
    · have h1 : generateJsonFieldDto m f out fs = fs := by
        simp [generateJsonFieldDto, h]
      rw [h1, h1]
    · have hfalse : fsFileExists fs (jsonFieldDtoFilePath out f) = false := by
        cases hb : fsFileExists fs (jsonFieldDtoFilePath out f)
        · rfl
        · exact absurd hb h
      have h1 : generateJsonFieldDto m f out fs
          = fsWriteFile fs (jsonFieldDtoFilePath out f) (jsonFieldDtoContent m f) := by
        simp [generateJsonFieldDto, hfalse]
      rw [h1]
      have h2 : fsFileExists
          (fsWriteFile fs (jsonFieldDtoFilePath out f) (jsonFieldDtoContent m f))
          (jsonFieldDtoFilePath out f) = true := by
        unfold fsFileExists fsWriteFile
        rw [getProp_setProp_self]
        rfl
      simp [generateJsonFieldDto, h2]
  · intro fs h
    have h1 : generateJsonFieldDto m f out fs
        = fsWriteFile fs (jsonFieldDtoFilePath out f) (jsonFieldDtoContent m f) := by
      simp [generateJsonFieldDto, h]
    rw [h1]
    exact getProp_setProp_self fs (jsonFieldDtoFilePath out f) (jsonFieldDtoContent m f)

/-- C10, witness: the pre-existing companion file of `c10fsExisting` is
left unchanged; on an empty file system the file is created with the
generated content and a second run is a no-op. -/
theorem c10_witness :
    generateJsonFieldDto c10m c10f "out" c10fsExisting = c10fsExisting
    ∧ generateJsonFieldDto c10m c10f "out" (generateJsonFieldDto c10m c10f "out" [])
        = generateJsonFieldDto c10m c10f "out" []
    ∧ getProp (jsonFieldDtoFilePath "out" c10f) (generateJsonFieldDto c10m c10f "out" [])
        = some (jsonFieldDtoContent c10m c10f) :=
  ⟨(c10_json_companion_generate_once c10m c10f "out").1 c10fsExisting rfl,
    (c10_json_companion_generate_once c10m c10f "out").2.1 [],
    (c10_json_companion_generate_once c10m c10f "out").2.2 [] rfl⟩

end PrismaNestApi
